import Mathlib

/-!
Verification of the ELB access-log parser and batch forwarder
(`src/lambda_handler.py`).

Strings are modelled as `List Char`.  The Python regular expression in
`parse_elb_log` is embedded as a deterministic sequential matcher: every
quantified sub-pattern of the source regex (`\S+`, `[^"]*`, `\d+`, …) is
followed by a delimiter that cannot occur inside the quantified class
(a whitespace after `\S+`, a `"` after `[^"]*`, a non-digit literal after
digit groups), so Python's backtracking search has exactly one possible
split and the regex is equivalent to the deterministic field-by-field
consumption written here.  The same determinization applies to
`re.sub(r'app/k8s-default-ingressn-[a-z0-9]+/[a-z0-9]+', ...)` and to the
`datetime.strptime` format regex (CPython `_strptime.TimeRE`, compiled
with `IGNORECASE`, `%Y` = exactly four digits, `%m`/`%d`/`%H`/`%M`/`%S`
= bounded one-or-two digit alternations, `%f` = one to six digits padded
right to microseconds).
-/

set_option maxRecDepth 20000

/-- Python `\s` for the ASCII range (log lines are ASCII). -/
def isPySpace (c : Char) : Bool :=
  c = ' ' || c = '\t' || c = '\n' || c = '\r' || c = '\x0b' || c = '\x0c'

/-- Python `\d` for the ASCII range. -/
def isDigitC (c : Char) : Bool := '0' ≤ c && c ≤ '9'

def digVal (c : Char) : Nat := c.toNat - '0'.toNat

/-- The class `[a-z0-9]` : the character class of the hash segments in the
`app/k8s-default-ingressn-<hash>/<hash>` normalization pattern. -/
def isHashChar (c : Char) : Bool := ('a' ≤ c && c ≤ 'z') || ('0' ≤ c && c ≤ '9')

/-! ### Python `str.replace` -/

/-- Auxiliary scan of `str.replace` for a non-empty search string:
left-to-right, non-overlapping occurrences.  Structural recursion on a
fuel bound (each step consumes at least one character, so any
`fuel ≥ s.length` computes the scan; the fuel-exhausted fallback is
unreachable then). -/
def pyRepGo (old new : List Char) : Nat → List Char → List Char
  | _, [] => []
  | 0, s => s
  | fuel + 1, c :: t =>
    if old.isPrefixOf (c :: t) then new ++ pyRepGo old new fuel ((c :: t).drop old.length)
    else c :: pyRepGo old new fuel t

/-- Interleaving used by Python `str.replace` when the search string is
empty: `"abc".replace("", X) = X ++ "a" ++ X ++ "b" ++ X ++ "c" ++ X`
(the leading `X` is added by `pyReplace` itself). -/
def interC (new : List Char) : List Char → List Char
  | [] => []
  | c :: t => c :: (new ++ interC new t)

/-- Python `str.replace(old, new)` on `List Char`. -/
def pyReplace (s old new : List Char) : List Char :=
  if old = [] then new ++ interC new s
  else pyRepGo old new s.length s

/-! ### `re.sub(r'app/k8s-default-ingressn-[a-z0-9]+/[a-z0-9]+', 'app/k8s-default-ingress', line)` -/

def APP_PAT_HEAD : List Char := ("app/k8s-default-ingressn-").toList

def APP_REPL : List Char := ("app/k8s-default-ingress").toList

/-- One attempted match of the normalization pattern at the head of `l`:
the literal head, a non-empty greedy `[a-z0-9]+` run, `'/'`, a second
non-empty greedy run.  Returns the remainder after the match. -/
def matchApp (l : List Char) : Option (List Char) :=
  if APP_PAT_HEAD.isPrefixOf l then
    match (l.drop APP_PAT_HEAD.length).span isHashChar with
    | (h1, '/' :: l2) =>
      if h1 = [] then none
      else
        match l2.span isHashChar with
        | (h2, rest) => if h2 = [] then none else some rest
    | _ => none
  else none

theorem matchApp_length {l rest : List Char} (h : matchApp l = some rest) :
    rest.length < l.length := by
  unfold matchApp at h
  split at h
  · rename_i hpre
    have hlen : APP_PAT_HEAD.length ≤ l.length :=
      ( List.isPrefixOf_iff_prefix.mp hpre).length_le
    split at h
    · rename_i h1 l2 hspan
      split at h
      · exact Option.noConfusion h
      · split at h
        rename_i h2 rest2 hspan2
        split at h
        · exact Option.noConfusion h
        · injection h with h
          subst h
          have hl2 : l2.length < (l.drop APP_PAT_HEAD.length).length := by
            rw [List.span_eq_take_drop] at hspan
            have h2eq : (l.drop APP_PAT_HEAD.length).dropWhile isHashChar = '/' :: l2 := by
              have := congrArg Prod.snd hspan
              simpa using this
            have hle : ('/' :: l2).length ≤ (l.drop APP_PAT_HEAD.length).length := by
              rw [← h2eq]
              exact (List.dropWhile_suffix _).length_le
            simp at hle
            simp only [List.length_drop]
            omega
          have hrest : rest2.length ≤ l2.length := by
            rw [List.span_eq_take_drop] at hspan2
            have h2eq : l2.dropWhile isHashChar = rest2 := by
              have := congrArg Prod.snd hspan2
              simpa using this
            rw [← h2eq]
            exact (List.dropWhile_suffix _).length_le
          rw [List.length_drop] at hl2
          have hhead : 0 < APP_PAT_HEAD.length := by decide
          omega
    · exact Option.noConfusion h
  · exact Option.noConfusion h

/-- Model of `re.sub` for the normalization pattern: scan left to right, replace
each non-overlapping occurrence by `APP_REPL`, continue after it.
Structural recursion on a fuel bound, sufficient because a match
consumes at least one character (`matchApp_length`). -/
def subAppGo : Nat → List Char → List Char
  | _, [] => []
  | 0, s => s
  | fuel + 1, c :: t =>
    match matchApp (c :: t) with
    | some rest => APP_REPL ++ subAppGo fuel rest
    | none => c :: subAppGo fuel t

def subApp (l : List Char) : List Char := subAppGo l.length l

/-! ### `rsplit(':', 1)` and `split('/')[-1]` -/

/-- Model of `s.rsplit(':', 1)` when `':' in s`, else `(s, "")` — as used at
source lines 69-70. -/
def rsplitColon (s : List Char) : List Char × List Char :=
  if ':' ∈ s then
    let r := s.reverse.span (fun c => c ≠ ':')
    ((r.2.drop 1).reverse, r.1.reverse)
  else (s, [])

/-- Model of `s.split('/')[-1]` : the segment after the last `'/'` (the whole
string when there is no `'/'`). -/
def lastSlashSeg (s : List Char) : List Char :=
  if '/' ∈ s then (s.reverse.span (fun c => c ≠ '/')).1.reverse
  else s

/-! ### `datetime.strptime(t, "%Y-%m-%dT%H:%M:%S.%fZ")` and `datetime.isoformat()` -/

structure PyDateTime where
  year : Nat
  month : Nat
  day : Nat
  hour : Nat
  minute : Nat
  second : Nat
  microsecond : Nat
deriving DecidableEq

/-- A numeric field of the CPython `_strptime` regex, an alternation of
two-digit and one-digit branches (for example `%m` is `1[0-2]|0[1-9]|[1-9]`).
The field is always followed by a non-digit literal, so the two-digit
branch applies exactly when the next two characters are digits forming an
allowed value, and otherwise the one-digit branch must apply. -/
def read2or1 (allow2 allow1 : Nat → Bool) : List Char → Option (Nat × List Char)
  | c1 :: c2 :: rest =>
    if isDigitC c1 && isDigitC c2 && allow2 (10 * digVal c1 + digVal c2) then
      some (10 * digVal c1 + digVal c2, rest)
    else if isDigitC c1 && allow1 (digVal c1) then some (digVal c1, c2 :: rest)
    else none
  | [c1] => if isDigitC c1 && allow1 (digVal c1) then some (digVal c1, []) else none
  | [] => none

/-- Format directive `%Y` : exactly four digits. -/
def read4d : List Char → Option (Nat × List Char)
  | c1 :: c2 :: c3 :: c4 :: rest =>
    if isDigitC c1 && isDigitC c2 && isDigitC c3 && isDigitC c4 then
      some (1000 * digVal c1 + 100 * digVal c2 + 10 * digVal c3 + digVal c4, rest)
    else none
  | _ => none

/-- A literal character of the format string. -/
def litc (c : Char) : List Char → Option (List Char)
  | x :: r => if x = c then some r else none
  | [] => none

/-- A literal letter, case-insensitively (`_strptime` compiles with
`IGNORECASE`): `up` is the uppercase form, `lo` the lowercase form. -/
def litCI (up lo : Char) : List Char → Option (List Char)
  | x :: r => if x = up || x = lo then some r else none
  | [] => none

/-- Format directive `%f` : one to six digits, zero-padded on the right to microseconds. -/
def readFrac (l : List Char) : Option (Nat × List Char) :=
  match l.span isDigitC with
  | (ds, rest) =>
    if 1 ≤ ds.length && ds.length ≤ 6 then
      some ((ds.foldl (fun a c => 10 * a + digVal c) 0) * 10 ^ (6 - ds.length), rest)
    else none

def isLeap (y : Nat) : Bool := y % 4 = 0 && (y % 100 ≠ 0 || y % 400 = 0)

def daysInMonth (y m : Nat) : Nat :=
  if m = 2 then (if isLeap y then 29 else 28)
  else if m = 4 || m = 6 || m = 9 || m = 11 then 30
  else 31

/-- Model of `datetime.strptime(s, "%Y-%m-%dT%H:%M:%S.%fZ")`, returning `none`
whenever CPython raises `ValueError`: the format regex must consume the
whole string, and the `datetime` constructor additionally requires
`year ≥ 1`, `second ≤ 59` (the regex itself admits leap seconds 60-61)
and a day valid for the month. -/
def strptimeELB (s : List Char) : Option PyDateTime :=
  match read4d s with
  | none => none
  | some (y, r1) =>
  match litc '-' r1 with
  | none => none
  | some r2 =>
  match read2or1 (fun v => 1 ≤ v && v ≤ 12) (fun v => 1 ≤ v) r2 with
  | none => none
  | some (mo, r3) =>
  match litc '-' r3 with
  | none => none
  | some r4 =>
  match read2or1 (fun v => 1 ≤ v && v ≤ 31) (fun v => 1 ≤ v) r4 with
  | none => none
  | some (d, r5) =>
  match litCI 'T' 't' r5 with
  | none => none
  | some r6 =>
  match read2or1 (fun v => v ≤ 23) (fun _ => true) r6 with
  | none => none
  | some (h, r7) =>
  match litc ':' r7 with
  | none => none
  | some r8 =>
  match read2or1 (fun v => v ≤ 59) (fun _ => true) r8 with
  | none => none
  | some (mi, r9) =>
  match litc ':' r9 with
  | none => none
  | some r10 =>
  match read2or1 (fun v => v ≤ 61) (fun _ => true) r10 with
  | none => none
  | some (se, r11) =>
  match litc '.' r11 with
  | none => none
  | some r12 =>
  match readFrac r12 with
  | none => none
  | some (f, r13) =>
  match litCI 'Z' 'z' r13 with
  | none => none
  | some r14 =>
  if r14 = [] && 1 ≤ y && se ≤ 59 && d ≤ daysInMonth y mo then
    some ⟨y, mo, d, h, mi, se, f⟩
  else none

/-- Zero-padded decimal rendering of width `w`. -/
def padZ (w n : Nat) : List Char :=
  let ds := Nat.toDigits 10 n
  List.replicate (w - ds.length) '0' ++ ds

/-- Model of `datetime.isoformat()` : microseconds are printed (six digits) only
when non-zero. -/
def isoformat (t : PyDateTime) : List Char :=
  padZ 4 t.year ++ ['-'] ++ padZ 2 t.month ++ ['-'] ++ padZ 2 t.day ++ ['T'] ++
    padZ 2 t.hour ++ [':'] ++ padZ 2 t.minute ++ [':'] ++ padZ 2 t.second ++
    (if t.microsecond = 0 then [] else ['.'] ++ padZ 6 t.microsecond)

/-! ### The 28-field grammar (the `re.match` pattern of `parse_elb_log`) -/

/-- Pattern `\S+\s` : a maximal non-empty run of non-whitespace characters,
followed by exactly one whitespace character (consumed). -/
def fieldNS (l : List Char) : Option (List Char × List Char) :=
  match l.span (fun c => !isPySpace c) with
  | ([], _) => none
  | (_, []) => none
  | (run, _c :: rest) => some (run, rest)

/-- Pattern `\S+\s`, also returning the consumed whitespace character (needed to
reconstruct the text matched by the `request` group). -/
def fieldNSc (l : List Char) : Option (List Char × Char × List Char) :=
  match l.span (fun c => !isPySpace c) with
  | ([], _) => none
  | (_, []) => none
  | (run, c :: rest) => some (run, c, rest)

/-- Pattern `"([^"]*)"\s` : a quoted field. -/
def fieldQ (l : List Char) : Option (List Char × List Char) :=
  match l with
  | '"' :: l1 =>
    match l1.span (fun c => c ≠ '"') with
    | (content, '"' :: c :: rest) => if isPySpace c then some (content, rest) else none
    | _ => none
  | _ => none

/-- Non-empty all-digits token (`\d+`). -/
def isDigits (t : List Char) : Bool :=
  match t with
  | [] => false
  | _ => t.all isDigitC

/-- Pattern `(-?\d+|-)\s`. -/
def fieldSigned (l : List Char) : Option (List Char × List Char) :=
  match fieldNS l with
  | some (tok, rest) =>
    if isDigits tok || tok = ['-'] ||
        (match tok with | '-' :: ds => isDigits ds | _ => false) then
      some (tok, rest)
    else none
  | none => none

/-- Pattern `(\d+|-)\s`. -/
def fieldNum (l : List Char) : Option (List Char × List Char) :=
  match fieldNS l with
  | some (tok, rest) => if isDigits tok || tok = ['-'] then some (tok, rest) else none
  | none => none

/-- Pattern `(\d+)\s`. -/
def fieldNumS (l : List Char) : Option (List Char × List Char) :=
  match fieldNS l with
  | some (tok, rest) => if isDigits tok then some (tok, rest) else none
  | none => none

/-- Pattern `"((\S+)\s(\S+)\s(\S+))"\s` : the quoted request field.  The third
`\S+` is greedy and would swallow the closing quote, so the regex
backtracks exactly one character: the third run must END with `"` and be
followed by a whitespace.  Returns `(request, method, url, protocol, rest)`
where `request` is the exact text matched by the outer group. -/
def fieldRequest (l : List Char) : Option (List Char × List Char × List Char × List Char × List Char) :=
  match l with
  | '"' :: l1 =>
    match fieldNSc l1 with
    | some (m, c1, l2) =>
      match fieldNSc l2 with
      | some (u, c2, l3) =>
        match l3.span (fun c => !isPySpace c) with
        | (run3, rest3) =>
          if run3.getLast? = some '"' && 2 ≤ run3.length then
            match rest3 with
            | _c :: rest4 =>
              some (m ++ c1 :: u ++ c2 :: run3.dropLast, m, u, run3.dropLast, rest4)
            | [] => none
          else none
      | none => none
    | none => none
  | _ => none

/-- Final `(?P<tid>\S+)` : no trailing `\s`, trailing text is ignored
(the pattern is not anchored at the end of the line). -/
def lastNS (l : List Char) : Option (List Char × List Char) :=
  match l.span (fun c => !isPySpace c) with
  | ([], _) => none
  | (run, rest) => some (run, rest)

/-- The named groups of the pattern, in source order. -/
structure Groups where
  type : List Char
  time : List Char
  client_port : List Char
  target_port : List Char
  request_processing_time : List Char
  target_processing_time : List Char
  response_processing_time : List Char
  elb_status_code : List Char
  target_status_code : List Char
  received_bytes : List Char
  sent_bytes : List Char
  request : List Char
  method : List Char
  url : List Char
  protocol : List Char
  user_agent : List Char
  ssl_cipher : List Char
  ssl_protocol : List Char
  target_group_arn : List Char
  trace_id : List Char
  domain_name : List Char
  matched_rule_priority : List Char
  request_creation_time : List Char
  actions_executed : List Char
  redirect_url : List Char
  error_reason : List Char
  target_port_list : List Char
  target_status_code_list : List Char
  classification : List Char
  classification_reason : List Char
  tid : List Char

/-- Model of `re.match(pattern, line, re.VERBOSE)` for the 28-field grammar:
sequential consumption of the fields in source order.  The two `\S+\s`
fields without a group (the ELB name after `time`, the certificate ARN
after `domain_name`) are consumed and discarded. -/
def matchELB (line : List Char) : Option Groups :=
  match fieldNS line with
  | none => none
  | some (ty, r1) =>
   match fieldNS r1 with
   | none => none
   | some (tm, r2) =>
    match fieldNS r2 with
    | none => none
    | some (_elbName, r3) =>
     match fieldNS r3 with
     | none => none
     | some (cp, r4) =>
      match fieldNS r4 with
      | none => none
      | some (tp, r5) =>
       match fieldSigned r5 with
       | none => none
       | some (rpt, r6) =>
        match fieldSigned r6 with
        | none => none
        | some (tpt, r7) =>
         match fieldSigned r7 with
         | none => none
         | some (rspt, r8) =>
          match fieldNum r8 with
          | none => none
          | some (esc, r9) =>
           match fieldNS r9 with
           | none => none
           | some (tsc, r10) =>
            match fieldNum r10 with
            | none => none
            | some (rb, r11) =>
             match fieldNumS r11 with
             | none => none
             | some (sb, r12) =>
              match fieldRequest r12 with
              | none => none
              | some (req, meth, u, proto, r13) =>
               match fieldQ r13 with
               | none => none
               | some (ua, r14) =>
                match fieldNS r14 with
                | none => none
                | some (cipher, r15) =>
                 match fieldNS r15 with
                 | none => none
                 | some (sslp, r16) =>
                  match fieldNS r16 with
                  | none => none
                  | some (tga, r17) =>
                   match fieldQ r17 with
                   | none => none
                   | some (trace, r18) =>
                    match fieldQ r18 with
                    | none => none
                    | some (dom, r19) =>
                     match fieldNS r19 with
                     | none => none
                     | some (_certArn, r20) =>
                      match fieldNS r20 with
                      | none => none
                      | some (mrp, r21) =>
                       match fieldNS r21 with
                       | none => none
                       | some (rct, r22) =>
                        match fieldQ r22 with
                        | none => none
                        | some (act, r23) =>
                         match fieldQ r23 with
                         | none => none
                         | some (redir, r24) =>
                          match fieldQ r24 with
                          | none => none
                          | some (errr, r25) =>
                           match fieldQ r25 with
                           | none => none
                           | some (tpl, r26) =>
                            match fieldQ r26 with
                            | none => none
                            | some (tscl, r27) =>
                             match fieldQ r27 with
                             | none => none
                             | some (cls, r28) =>
                              match fieldQ r28 with
                              | none => none
                              | some (clsr, r29) =>
                               match lastNS r29 with
                               | none => none
                               | some (tid, _rest) =>
                                some ⟨ty, tm, cp, tp, rpt, tpt, rspt, esc, tsc, rb, sb, req, meth, u, proto, ua,
                                      cipher, sslp, tga, trace, dom, mrp, rct, act, redir, errr, tpl, tscl, cls,
                                      clsr, tid⟩

/-! ### Python values and the parse result dictionary -/

/-- A Python value as returned by `parse_elb_log`: a string or a dict
(association list in insertion order, as in Python 3.7+). -/
inductive PyVal where
  | s : List Char → PyVal
  | dict : List (List Char × PyVal) → PyVal

def lookupKV : List (List Char × PyVal) → List Char → Option PyVal
  | [], _ => none
  | (k, v) :: t, key => if k = key then some v else lookupKV t key

/-- Dictionary access (`none` on a string or a missing key). -/
def PyVal.get : PyVal → List Char → Option PyVal
  | .dict kvs, k => lookupKV kvs k
  | .s _, _ => none

/-- The `'' if value == '-' else str(value)` normalization of source
lines 80-81. -/
def normVal (v : List Char) : List Char :=
  if v = ['-'] then [] else v

def CERT_REPL : List Char := ("CERT_ARN").toList
def ACCT_REPL : List Char := ("ACCOUNT_ID").toList

/-- Model of `parse_elb_log(log_line)` with the two environment secrets
(`CERT_ARN`, `ACCOUNT_ID`) passed explicitly.  Mirrors source lines
16-89: path pre-normalization (which REBINDS `log_line`), grammar match,
timestamp formatting, address splitting, service extraction, sentinel
normalization over every entry of `result`, then the sanitized raw log
(built from the REBOUND, i.e. normalized, line) and the `_time` header. -/
def parse_elb_log (log_line cert_arn account_id : List Char) : PyVal :=
  let line := subApp log_line
  match matchELB line with
  | none =>
    .dict [(("_time").toList, .s []),
           (("data").toList, .dict [(("error").toList, .s (("Failed to parse log line").toList))])]
  | some g =>
    let iso_time : List Char :=
      match strptimeELB g.time with
      | some dt => isoformat dt ++ ['Z']
      | none => g.time
    let cp := rsplitColon g.client_port
    let tp := rsplitColon g.target_port
    let service := if g.target_group_arn = ['-'] then [] else lastSlashSeg g.target_group_arn
    let result : List (List Char × List Char) :=
      [(("type").toList, g.type),
       (("client_port").toList, cp.2),
       (("target_port").toList, tp.2),
       (("request_processing_time").toList, g.request_processing_time),
       (("target_processing_time").toList, g.target_processing_time),
       (("response_processing_time").toList, g.response_processing_time),
       (("elb_status_code").toList, g.elb_status_code),
       (("target_status_code").toList, g.target_status_code),
       (("received_bytes").toList, g.received_bytes),
       (("sent_bytes").toList, g.sent_bytes),
       (("request").toList, g.request),
       (("method").toList, g.method),
       (("url").toList, g.url),
       (("protocol").toList, g.protocol),
       (("user_agent").toList, g.user_agent),
       (("ssl_cipher").toList, g.ssl_cipher),
       (("ssl_protocol").toList, g.ssl_protocol),
       (("trace_id").toList, g.trace_id),
       (("domain_name").toList, g.domain_name),
       (("matched_rule_priority").toList, g.matched_rule_priority),
       (("request_creation_time").toList, g.request_creation_time),
       (("actions_executed").toList, g.actions_executed),
       (("redirect_url").toList, g.redirect_url),
       (("error_reason").toList, g.error_reason),
       (("target_port_list").toList, g.target_port_list),
       (("target_status_code_list").toList, g.target_status_code_list),
       (("classification").toList, g.classification),
       (("classification_reason").toList, g.classification_reason),
       (("tid").toList, g.tid),
       (("client").toList, cp.1),
       (("target").toList, tp.1),
       (("service").toList, service)]
    let raw_log := pyReplace (pyReplace line cert_arn CERT_REPL) account_id ACCT_REPL
    .dict ((("_time").toList, .s iso_time) ::
           (result.map (fun kv => (kv.1, PyVal.s (normVal kv.2)))) ++
           [(("raw_log").toList, .s raw_log)])

/-- Convenience: the match result of a raw input line (normalization
applied first, as in the source). -/
def elbGroups (log_line : List Char) : Option Groups := matchELB (subApp log_line)

/-! ### The batching loop of `lambda_handler` (source lines 113-125) -/

/-- The loop `for i in range(0, len(json_logs), 50)`: one sink call per
contiguous slice of at most 50 records.  The status returned by the sink
is recorded but never inspected — a failing batch does not stop the
loop (the source only logs it). -/
def runBatchesGo (sink : List PyVal → Nat) : Nat → List PyVal → List (List PyVal × Nat)
  | _, [] => []
  | 0, _ => []
  | fuel + 1, x :: t =>
    ((x :: t).take 50, sink ((x :: t).take 50)) :: runBatchesGo sink fuel ((x :: t).drop 50)

def runBatches (sink : List PyVal → Nat) (xs : List PyVal) : List (List PyVal × Nat) :=
  runBatchesGo sink xs.length xs

/-- Source lines 99-125 after the S3/gzip retrieval: parse every line,
append each record (success or failure) to `json_logs`, send the batches,
and return the processed-records count `len(json_logs)`. -/
def lambda_handler_core (sink : List PyVal → Nat) (lines : List (List Char))
    (cert_arn account_id : List Char) : List (List PyVal × Nat) × Nat :=
  let json_logs := lines.map (fun l => parse_elb_log l cert_arn account_id)
  (runBatches sink json_logs, json_logs.length)

/-! ### General helper lemmas -/

theorem span_decomp {p : Char → Bool} {l a b : List Char} (h : l.span p = (a, b)) :
    l = a ++ b ∧ (∀ c ∈ a, p c = true) := by
  rw [List.span_eq_take_drop] at h
  have ha : a = l.takeWhile p := (congrArg Prod.fst h).symm
  have hb : b = l.dropWhile p := (congrArg Prod.snd h).symm
  subst ha; subst hb
  exact ⟨(List.takeWhile_append_dropWhile p l).symm, fun c hc => List.mem_takeWhile_imp hc⟩

theorem dropWhile_head_false {p : Char → Bool} :
    ∀ {l t : List Char} {c : Char}, l.dropWhile p = c :: t → p c = false := by
  intro l
  induction l with
  | nil => intro t c h; exact List.noConfusion h
  | cons x xs ih =>
    intro t c h
    by_cases hp : p x
    · rw [List.dropWhile_cons_of_pos hp] at h; exact ih h
    · rw [List.dropWhile_cons_of_neg hp] at h
      have hx : x = c := (List.cons.inj h).1
      subst hx
      simpa using hp

theorem span_head_false {p : Char → Bool} {l a t : List Char} {c : Char}
    (h : l.span p = (a, c :: t)) : p c = false := by
  rw [List.span_eq_take_drop] at h
  have hb : l.dropWhile p = c :: t := by
    have := congrArg Prod.snd h
    simpa using this
  exact dropWhile_head_false hb

/-- A non-empty infix whose head avoids every character of `blk` lies
entirely inside the right part of `blk ++ T`. -/
theorem infix_append_right {w blk T : List Char} (hne : w ≠ [])
    (hhead : ∀ c, w.head? = some c → c ∉ blk) (h : w <:+: blk ++ T) : w <:+: T := by
  induction blk with
  | nil => simpa using h
  | cons b blk' ih =>
    rw [List.cons_append] at h
    rcases List.infix_cons_iff.mp h with hpre | hinf
    · cases w with
      | nil => exact absurd rfl hne
      | cons wh wt =>
        have hwh : wh = b := (List.cons_prefix_cons.mp hpre).1
        subst hwh
        exact absurd (List.mem_cons_self _ _) (hhead _ rfl)
    · exact ih (fun c hc hmem => hhead c hc (List.mem_cons_of_mem _ hmem)) hinf

/-! ### Decomposition lemmas for the field matchers -/

theorem fieldNS_decomp {l tok rest : List Char} (h : fieldNS l = some (tok, rest)) :
    ∃ c, l = tok ++ c :: rest ∧ tok ≠ [] ∧ isPySpace c = true ∧
      (∀ x ∈ tok, isPySpace x = false) := by
  unfold fieldNS at h
  rcases hs : l.span (fun c => !isPySpace c) with ⟨a, b⟩
  rw [hs] at h
  obtain ⟨hl, hmem⟩ := span_decomp hs
  cases a with
  | nil => simp at h
  | cons x xs =>
    cases b with
    | nil => simp at h
    | cons c bs =>
      simp only [Option.some.injEq, Prod.mk.injEq] at h
      obtain ⟨htok, hrest⟩ := h
      refine ⟨c, ?_, ?_, ?_, ?_⟩
      · rw [← htok, ← hrest]; exact hl
      · rw [← htok]; simp
      · have := span_head_false hs
        simpa using this
      · intro x hx
        have := hmem x (by rw [← htok] at hx; exact hx)
        simpa using this

theorem fieldNS_suffix {l tok rest : List Char} (h : fieldNS l = some (tok, rest)) :
    rest <:+ l := by
  obtain ⟨c, hl, -, -, -⟩ := fieldNS_decomp h
  rw [hl]
  exact ⟨tok ++ [c], by simp⟩

theorem fieldNSc_decomp {l tok rest : List Char} {c : Char}
    (h : fieldNSc l = some (tok, c, rest)) :
    l = tok ++ c :: rest ∧ tok ≠ [] ∧ isPySpace c = true := by
  unfold fieldNSc at h
  rcases hs : l.span (fun c => !isPySpace c) with ⟨a, b⟩
  rw [hs] at h
  obtain ⟨hl, hmem⟩ := span_decomp hs
  cases a with
  | nil => simp at h
  | cons x xs =>
    cases b with
    | nil => simp at h
    | cons c' bs =>
      simp only [Option.some.injEq, Prod.mk.injEq] at h
      obtain ⟨htok, hc, hrest⟩ := h
      subst htok; subst hc; subst hrest
      refine ⟨hl, by simp, ?_⟩
      have := span_head_false hs
      simpa using this

theorem fieldQ_decomp {l tok rest : List Char} (h : fieldQ l = some (tok, rest)) :
    ∃ c, l = '"' :: tok ++ '"' :: c :: rest ∧ isPySpace c = true := by
  unfold fieldQ at h
  split at h
  · rename_i l1
    split at h
    · rename_i content c rest' hs
      split at h
      · rename_i hsp
        simp only [Option.some.injEq, Prod.mk.injEq] at h
        obtain ⟨htok, hrest⟩ := h
        subst htok; subst hrest
        obtain ⟨hl, -⟩ := span_decomp hs
        exact ⟨c, by rw [hl]; simp, hsp⟩
      · exact Option.noConfusion h
    · exact Option.noConfusion h
  · exact Option.noConfusion h

theorem fieldQ_suffix {l tok rest : List Char} (h : fieldQ l = some (tok, rest)) :
    rest <:+ l := by
  obtain ⟨c, hl, -⟩ := fieldQ_decomp h
  rw [hl]
  exact ⟨'"' :: tok ++ ['"', c], by simp⟩

theorem fieldSigned_eq {l : List Char} {p : List Char × List Char}
    (h : fieldSigned l = some p) : fieldNS l = some p := by
  unfold fieldSigned at h
  split at h
  · rename_i tok rest heq
    split at h
    · cases h; exact heq
    · exact Option.noConfusion h
  · exact Option.noConfusion h

theorem fieldNum_eq {l : List Char} {p : List Char × List Char}
    (h : fieldNum l = some p) : fieldNS l = some p := by
  unfold fieldNum at h
  split at h
  · rename_i tok rest heq
    split at h
    · cases h; exact heq
    · exact Option.noConfusion h
  · exact Option.noConfusion h

theorem fieldNumS_eq {l : List Char} {p : List Char × List Char}
    (h : fieldNumS l = some p) : fieldNS l = some p := by
  unfold fieldNumS at h
  split at h
  · rename_i tok rest heq
    split at h
    · cases h; exact heq
    · exact Option.noConfusion h
  · exact Option.noConfusion h

theorem fieldRequest_decomp {l req m u p rest : List Char}
    (h : fieldRequest l = some (req, m, u, p, rest)) :
    ∃ (c : Char) (pre : List Char), isPySpace c = true ∧ l = pre ++ '"' :: c :: rest := by
  unfold fieldRequest at h
  split at h
  · rename_i l1
    split at h
    · rename_i m1 c1 l2 heq1
      split at h
      · rename_i u1 c2 l3 heq2
        split at h
        rename_i run3 rest3 heq3
        split at h
        · rename_i hcond
          split at h
          · rename_i c rest4
            simp only [Option.some.injEq, Prod.mk.injEq] at h
            obtain ⟨-, -, -, -, hrest⟩ := h
            subst hrest
            obtain ⟨hl1, hm1ne, -⟩ := fieldNSc_decomp heq1
            obtain ⟨hl2, hu1ne, -⟩ := fieldNSc_decomp heq2
            obtain ⟨hl3, -⟩ := span_decomp heq3
            have hsp : isPySpace c = true := by
              have := span_head_false heq3
              simpa using this
            simp only [Bool.and_eq_true, decide_eq_true_eq] at hcond
            have hrun3ne : run3 ≠ [] := by
              intro he
              rw [he] at hcond
              simp at hcond
            have hrun3 : run3.dropLast ++ ['"'] = run3 := by
              have hg : run3.getLast hrun3ne = '"' := by
                have := List.getLast?_eq_getLast run3 hrun3ne
                rw [this] at hcond
                exact (Option.some.inj hcond.1)
              rw [← hg]
              exact List.dropLast_append_getLast hrun3ne
            refine ⟨c, '"' :: m1 ++ c1 :: u1 ++ c2 :: run3.dropLast, hsp, ?_⟩
            rw [hl1, hl2, hl3, ← hrun3]
            simp
          · exact Option.noConfusion h
        · exact Option.noConfusion h
      · exact Option.noConfusion h
    · exact Option.noConfusion h
  · exact Option.noConfusion h

theorem fieldRequest_suffix {l req m u p rest : List Char}
    (h : fieldRequest l = some (req, m, u, p, rest)) : rest <:+ l := by
  obtain ⟨c, pre, -, hl⟩ := fieldRequest_decomp h
  rw [hl]
  exact ⟨pre ++ ['"', c], by simp⟩

theorem matchELB_props {line : List Char} {g : Groups} (h : matchELB line = some g) :
    2 ≤ line.length ∧ ∃ c, ['\"', c, '\"'] <:+: line := by
  unfold matchELB at h
  split at h
  · exact Option.noConfusion h
  rename_i ty r1 heq1
  split at h
  · exact Option.noConfusion h
  rename_i tm r2 heq2
  split at h
  · exact Option.noConfusion h
  rename_i en r3 heq3
  split at h
  · exact Option.noConfusion h
  rename_i cp r4 heq4
  split at h
  · exact Option.noConfusion h
  rename_i tp r5 heq5
  split at h
  · exact Option.noConfusion h
  rename_i rpt r6 heq6
  split at h
  · exact Option.noConfusion h
  rename_i tpt r7 heq7
  split at h
  · exact Option.noConfusion h
  rename_i rspt r8 heq8
  split at h
  · exact Option.noConfusion h
  rename_i esc r9 heq9
  split at h
  · exact Option.noConfusion h
  rename_i tsc r10 heq10
  split at h
  · exact Option.noConfusion h
  rename_i rb r11 heq11
  split at h
  · exact Option.noConfusion h
  rename_i sb r12 heq12
  split at h
  · exact Option.noConfusion h
  rename_i req meth uu proto r13 heq13
  split at h
  · exact Option.noConfusion h
  rename_i ua r14 heq14
  clear h
  have s1 : r1 <:+ line := fieldNS_suffix heq1
  have s2 : r2 <:+ r1 := fieldNS_suffix heq2
  have s3 : r3 <:+ r2 := fieldNS_suffix heq3
  have s4 : r4 <:+ r3 := fieldNS_suffix heq4
  have s5 : r5 <:+ r4 := fieldNS_suffix heq5
  have s6 : r6 <:+ r5 := fieldNS_suffix (fieldSigned_eq heq6)
  have s7 : r7 <:+ r6 := fieldNS_suffix (fieldSigned_eq heq7)
  have s8 : r8 <:+ r7 := fieldNS_suffix (fieldSigned_eq heq8)
  have s9 : r9 <:+ r8 := fieldNS_suffix (fieldNum_eq heq9)
  have s10 : r10 <:+ r9 := fieldNS_suffix heq10
  have s11 : r11 <:+ r10 := fieldNS_suffix (fieldNum_eq heq11)
  have s12 : r12 <:+ r11 := fieldNS_suffix (fieldNumS_eq heq12)
  have s12l : r12 <:+ line :=
    (((((((((((s12.trans s11).trans s10).trans s9).trans s8).trans s7).trans s6).trans s5).trans s4).trans s3).trans s2).trans s1)
  obtain ⟨c, pre, hsp, hr12⟩ := fieldRequest_decomp heq13
  obtain ⟨c2, hr13, -⟩ := fieldQ_decomp heq14
  constructor
  · obtain ⟨c0, hline, htyne, -, -⟩ := fieldNS_decomp heq1
    rw [hline]
    have : 1 ≤ ty.length := List.length_pos.mpr htyne
    simp only [List.length_append, List.length_cons]
    omega
  · refine ⟨c, ?_⟩
    have hinf : ['\"', c, '\"'] <:+: r12 := by
      rw [hr12, hr13]
      exact ⟨pre, ua ++ '\"' :: c2 :: r14, by simp⟩
    exact hinf.trans s12l.isInfix

/-! ### Lemmas about the `str.replace` scan -/

theorem pyRepGo_min_len (old new : List Char) :
    ∀ (fuel : Nat) (s : List Char), min s.length new.length ≤ (pyRepGo old new fuel s).length := by
  intro fuel
  induction fuel with
  | zero =>
    intro s
    cases s with
    | nil => simp [pyRepGo]
    | cons c t => simp only [pyRepGo]; omega
  | succ f ih =>
    intro s
    cases s with
    | nil => simp [pyRepGo]
    | cons c t =>
      rw [pyRepGo]
      split
      · simp only [List.length_append]
        omega
      · have := ih t
        simp only [List.length_cons]
        omega

theorem pyReplace_min_len (s old new : List Char) :
    min s.length new.length ≤ (pyReplace s old new).length := by
  unfold pyReplace
  split
  · simp only [List.length_append]
    omega
  · exact pyRepGo_min_len old new s.length s

theorem pyRepGo_prefix_out {old new : List Char} (hnew : new ≠ []) :
    ∀ (fuel : Nat) (w s : List Char), (∀ c ∈ w, c ∉ new) → s.length ≤ fuel →
      w <+: pyRepGo old new fuel s → w <+: s := by
  intro fuel
  induction fuel with
  | zero =>
    intro w s hw hs h
    cases s with
    | nil => simpa [pyRepGo] using h
    | cons c t => simp at hs
  | succ f ih =>
    intro w s hw hs h
    cases s with
    | nil => simpa [pyRepGo] using h
    | cons c t =>
      rw [pyRepGo] at h
      split at h
      · cases w with
        | nil => exact List.nil_prefix
        | cons wh wt =>
          exfalso
          cases new with
          | nil => exact hnew rfl
          | cons n0 n1 =>
            have : wh = n0 := (List.cons_prefix_cons.mp h).1
            exact hw wh (List.mem_cons_self _ _) (this ▸ List.mem_cons_self _ _)
      · cases w with
        | nil => exact List.nil_prefix
        | cons wh wt =>
          obtain ⟨hwh, hwt⟩ := List.cons_prefix_cons.mp h
          subst hwh
          have hlen : t.length ≤ f := by simp at hs; omega
          have := ih wt t (fun c hc => hw c (List.mem_cons_of_mem _ hc)) hlen hwt
          exact List.cons_prefix_cons.mpr ⟨rfl, this⟩

theorem pyRepGo_headQuote {old new : List Char} (hq : '"' ∉ new) (hnew : new ≠ []) :
    ∀ (fuel : Nat) (t : List Char), ['"'] <+: pyRepGo old new fuel t → ['"'] <+: t := by
  intro fuel
  induction fuel with
  | zero =>
    intro t h
    cases t with
    | nil => simpa [pyRepGo] using h
    | cons d t' => simpa [pyRepGo] using h
  | succ f ih =>
    intro t h
    cases t with
    | nil => simpa [pyRepGo] using h
    | cons d t' =>
      rw [pyRepGo] at h
      split at h
      · exfalso
        cases new with
        | nil => exact hnew rfl
        | cons n0 n1 =>
          have : '"' = n0 := (List.cons_prefix_cons.mp h).1
          exact hq (this ▸ List.mem_cons_self _ _)
      · have : '"' = d := (List.cons_prefix_cons.mp h).1
        subst this
        exact ⟨t', rfl⟩

theorem pyRepGo_pairQuote {old new : List Char} (hq : '"' ∉ new) (hlen : 2 ≤ new.length) :
    ∀ (fuel : Nat) (t : List Char) (x : Char),
      [x, '"'] <+: pyRepGo old new fuel t → [x, '"'] <+: t := by
  have hnew : new ≠ [] := by
    intro he; rw [he] at hlen; simp at hlen
  intro fuel
  induction fuel with
  | zero =>
    intro t x h
    cases t with
    | nil => simpa [pyRepGo] using h
    | cons d t' => simpa [pyRepGo] using h
  | succ f ih =>
    intro t x h
    cases t with
    | nil => simpa [pyRepGo] using h
    | cons d t' =>
      rw [pyRepGo] at h
      split at h
      · exfalso
        match new, hlen with
        | n0 :: n1 :: nrest, _ =>
          obtain ⟨hx, h2⟩ := List.cons_prefix_cons.mp h
          have : '"' = n1 := (List.cons_prefix_cons.mp h2).1
          exact hq (by rw [this]; exact List.mem_cons_of_mem _ (List.mem_cons_self _ _))
      · obtain ⟨hx, h2⟩ := List.cons_prefix_cons.mp h
        subst hx
        have := pyRepGo_headQuote hq hnew f t' h2
        cases t' with
        | nil => simp at this
        | cons e t'' =>
          have he : '"' = e := (List.cons_prefix_cons.mp this).1
          subst he
          exact List.cons_prefix_cons.mpr ⟨rfl, ⟨t'', rfl⟩⟩

theorem pyRepGo_qcq {old new : List Char} (hq : '"' ∉ new) (hlen : 2 ≤ new.length) :
    ∀ (fuel : Nat) (s : List Char) (c : Char),
      ['"', c, '"'] <:+: pyRepGo old new fuel s → ['"', c, '"'] <:+: s := by
  intro fuel
  induction fuel with
  | zero =>
    intro s c h
    cases s with
    | nil => simpa [pyRepGo] using h
    | cons d t => simpa [pyRepGo] using h
  | succ f ih =>
    intro s c h
    cases s with
    | nil => simpa [pyRepGo] using h
    | cons d t =>
      rw [pyRepGo] at h
      split at h
      · have h2 : ['"', c, '"'] <:+: pyRepGo old new f ((d :: t).drop old.length) :=
          infix_append_right (by simp) (by
            intro x hx
            have : x = '"' := by
              cases hx
              exact rfl
            subst this
            exact hq) h
        have := ih _ c h2
        exact this.trans (List.drop_suffix _ _).isInfix
      · rcases List.infix_cons_iff.mp h with hpre | hinf
        · obtain ⟨hd, h2⟩ := List.cons_prefix_cons.mp hpre
          subst hd
          have := pyRepGo_pairQuote hq hlen f t c h2
          exact (List.infix_cons_iff.mpr (Or.inl (List.cons_prefix_cons.mpr ⟨rfl, this⟩)))
        · exact (ih t c hinf).trans ⟨[d], [], by simp⟩

/-- After replacing every non-overlapping occurrence of `old` (left to
right), no occurrence of `old` remains, provided `old` shares no
character with `new` (a surviving occurrence would have to overlap an
inserted copy of `new`). -/
theorem pyRepGo_no_old {old new : List Char} (hold : old ≠ []) (hnew : new ≠ [])
    (hdisj : ∀ c ∈ old, c ∉ new) :
    ∀ (fuel : Nat) (s : List Char), s.length ≤ fuel →
      ¬ (old <:+: pyRepGo old new fuel s) := by
  intro fuel
  induction fuel with
  | zero =>
    intro s hs h
    cases s with
    | nil =>
      simp only [pyRepGo] at h
      exact hold (List.eq_nil_of_infix_nil h)
    | cons c t => simp at hs
  | succ f ih =>
    intro s hs h
    cases s with
    | nil =>
      simp only [pyRepGo] at h
      exact hold (List.eq_nil_of_infix_nil h)
    | cons c t =>
      rw [pyRepGo] at h
      split at h
      · rename_i hpre
        have hhead : ∀ x, old.head? = some x → x ∉ new := by
          intro x hx
          cases old with
          | nil => exact absurd rfl hold
          | cons o0 ot =>
            have : o0 = x := by simpa using hx
            subst this
            exact hdisj o0 (List.mem_cons_self _ _)
        have h2 := infix_append_right hold hhead h
        have hlen : ((c :: t).drop old.length).length ≤ f := by
          simp only [List.length_drop, List.length_cons]
          have : 1 ≤ old.length := List.length_pos.mpr hold
          simp only [List.length_cons] at hs
          omega
        exact ih _ hlen h2
      · rename_i hnp
        rcases List.infix_cons_iff.mp h with hpre | hinf
        · cases old with
          | nil => exact hold rfl
          | cons o0 ot =>
            obtain ⟨ho, hot⟩ := List.cons_prefix_cons.mp hpre
            subst ho
            have hot2 := pyRepGo_prefix_out hnew f ot t
              (fun x hx => hdisj x (List.mem_cons_of_mem _ hx))
              (by simp at hs; omega) hot
            exact hnp ( List.isPrefixOf_iff_prefix.mpr (List.cons_prefix_cons.mpr ⟨rfl, hot2⟩))
        · have hlen : t.length ≤ f := by simp at hs; omega
          exact ih t hlen hinf

/-- Replacement never creates a new occurrence of a string `w` that is
character-disjoint from `new`: if `w` did not occur in `s`, it does not
occur in the replaced string. -/
theorem pyRepGo_preserve {old new w : List Char} (hold : old ≠ []) (hnew : new ≠ [])
    (hwne : w ≠ []) (hw : ∀ c ∈ w, c ∉ new) :
    ∀ (fuel : Nat) (s : List Char), s.length ≤ fuel → ¬ (w <:+: s) →
      ¬ (w <:+: pyRepGo old new fuel s) := by
  intro fuel
  induction fuel with
  | zero =>
    intro s hs hns h
    cases s with
    | nil => simp only [pyRepGo] at h; exact hwne (List.eq_nil_of_infix_nil h)
    | cons c t => simp at hs
  | succ f ih =>
    intro s hs hns h
    cases s with
    | nil => simp only [pyRepGo] at h; exact hwne (List.eq_nil_of_infix_nil h)
    | cons c t =>
      rw [pyRepGo] at h
      split at h
      · have hhead : ∀ x, w.head? = some x → x ∉ new := by
          intro x hx
          cases w with
          | nil => exact absurd rfl hwne
          | cons w0 wt =>
            have : w0 = x := by simpa using hx
            subst this
            exact hw w0 (List.mem_cons_self _ _)
        have h2 := infix_append_right hwne hhead h
        have hlen : ((c :: t).drop old.length).length ≤ f := by
          simp only [List.length_drop, List.length_cons]
          have : 1 ≤ old.length := List.length_pos.mpr hold
          simp only [List.length_cons] at hs
          omega
        have hns2 : ¬ (w <:+: (c :: t).drop old.length) := by
          intro hx
          exact hns (hx.trans (List.drop_suffix _ _).isInfix)
        exact ih _ hlen hns2 h2
      · rcases List.infix_cons_iff.mp h with hpre | hinf
        · cases w with
          | nil => exact hwne rfl
          | cons w0 wt =>
            obtain ⟨hwidth, hwt⟩ := List.cons_prefix_cons.mp hpre
            subst hwidth
            have hwt2 := pyRepGo_prefix_out hnew f wt t
              (fun x hx => hw x (List.mem_cons_of_mem _ hx))
              (by simp at hs; omega) hwt
            exact hns (List.infix_cons_iff.mpr (Or.inl (List.cons_prefix_cons.mpr ⟨rfl, hwt2⟩)))
        · have hlen : t.length ≤ f := by simp at hs; omega
          have hns2 : ¬ (w <:+: t) := by
            intro hx
            exact hns (hx.trans ⟨[c], [], by simp⟩)
          exact ih t hlen hns2 hinf

/-! ### Quote-spacing lemmas for the empty-secret corruption argument -/

/-- In `interC new s` two quote characters are always separated by a
full copy of `new`, so the three-character pattern quote-X-quote never
occurs (when `new` is quote-free and has at least two characters). -/
theorem interC_no_qcq {new : List Char} (hq : '"' ∉ new) (hlen : 2 ≤ new.length) :
    ∀ (s : List Char) (c : Char), ¬ (['"', c, '"'] <:+: interC new s) := by
  intro s
  induction s with
  | nil =>
    intro c h
    simp only [interC] at h
    simp at h
  | cons c0 t ih =>
    intro c h
    simp only [interC] at h
    rcases List.infix_cons_iff.mp h with hpre | hinf
    · obtain ⟨hc0, h2⟩ := List.cons_prefix_cons.mp hpre
      match new, hlen with
      | n0 :: n1 :: nrest, _ =>
        obtain ⟨hc, h3⟩ := List.cons_prefix_cons.mp h2
        have : '"' = n1 := (List.cons_prefix_cons.mp h3).1
        exact hq (by rw [this]; exact List.mem_cons_of_mem _ (List.mem_cons_self _ _))
    · have h2 := infix_append_right (by simp)
        (by
          intro x hx
          have : x = '"' := by cases hx; exact rfl
          subst this
          exact hq) hinf
      exact ih c h2

theorem interC_top_no_qcq {new : List Char} (hq : '"' ∉ new) (hlen : 2 ≤ new.length)
    (s : List Char) (c : Char) : ¬ (['"', c, '"'] <:+: new ++ interC new s) := by
  intro h
  have h2 := infix_append_right (by simp)
    (by
      intro x hx
      have : x = '"' := by cases hx; exact rfl
      subst this
      exact hq) h
  exact interC_no_qcq hq hlen s c h2

/-! ### Quote-pattern transfer through `re.sub` path normalization -/

theorem matchApp_suffix {l rest : List Char} (h : matchApp l = some rest) :
    rest <:+ l := by
  unfold matchApp at h
  split at h
  · split at h
    · rename_i h1 l2 hspan
      split at h
      · exact Option.noConfusion h
      · split at h
        rename_i h2 rest2 hspan2
        split at h
        · exact Option.noConfusion h
        · injection h with h
          subst h
          have hs1 : ('/' :: l2) <:+ l.drop APP_PAT_HEAD.length := by
            rw [List.span_eq_take_drop] at hspan
            have : (l.drop APP_PAT_HEAD.length).dropWhile isHashChar = '/' :: l2 := by
              have := congrArg Prod.snd hspan
              simpa using this
            rw [← this]
            exact List.dropWhile_suffix _
          have hs2 : rest2 <:+ l2 := by
            rw [List.span_eq_take_drop] at hspan2
            have : l2.dropWhile isHashChar = rest2 := by
              have := congrArg Prod.snd hspan2
              simpa using this
            rw [← this]
            exact List.dropWhile_suffix _
          have hs3 : l2 <:+ '/' :: l2 := ⟨['/'], rfl⟩
          exact ((hs2.trans hs3).trans hs1).trans (List.drop_suffix _ _)
    · exact Option.noConfusion h
  · exact Option.noConfusion h

theorem subAppGo_headQuote :
    ∀ (fuel : Nat) (t : List Char), ['"'] <+: subAppGo fuel t → ['"'] <+: t := by
  intro fuel
  induction fuel with
  | zero =>
    intro t h
    cases t with
    | nil => simpa [subAppGo] using h
    | cons d t' => simpa [subAppGo] using h
  | succ f ih =>
    intro t h
    cases t with
    | nil => simpa [subAppGo] using h
    | cons d t' =>
      rw [subAppGo] at h
      split at h
      · exfalso
        have : '"' = 'a' := (List.cons_prefix_cons.mp h).1
        exact absurd this (by decide)
      · have : '"' = d := (List.cons_prefix_cons.mp h).1
        subst this
        exact ⟨t', rfl⟩

theorem subAppGo_pairQuote :
    ∀ (fuel : Nat) (t : List Char) (x : Char),
      [x, '"'] <+: subAppGo fuel t → [x, '"'] <+: t := by
  intro fuel
  induction fuel with
  | zero =>
    intro t x h
    cases t with
    | nil => simpa [subAppGo] using h
    | cons d t' => simpa [subAppGo] using h
  | succ f ih =>
    intro t x h
    cases t with
    | nil => simpa [subAppGo] using h
    | cons d t' =>
      rw [subAppGo] at h
      split at h
      · exfalso
        obtain ⟨hx, h2⟩ := List.cons_prefix_cons.mp h
        have : '"' = 'p' := (List.cons_prefix_cons.mp h2).1
        exact absurd this (by decide)
      · obtain ⟨hx, h2⟩ := List.cons_prefix_cons.mp h
        subst hx
        have := subAppGo_headQuote f t' h2
        cases t' with
        | nil => simp at this
        | cons e t'' =>
          have he : '"' = e := (List.cons_prefix_cons.mp this).1
          subst he
          exact List.cons_prefix_cons.mpr ⟨rfl, ⟨t'', rfl⟩⟩

theorem subAppGo_qcq :
    ∀ (fuel : Nat) (l : List Char) (c : Char),
      ['"', c, '"'] <:+: subAppGo fuel l → ['"', c, '"'] <:+: l := by
  intro fuel
  induction fuel with
  | zero =>
    intro l c h
    cases l with
    | nil => simpa [subAppGo] using h
    | cons d t => simpa [subAppGo] using h
  | succ f ih =>
    intro l c h
    cases l with
    | nil => simpa [subAppGo] using h
    | cons d t =>
      rw [subAppGo] at h
      split at h
      · rename_i rest hm
        have h2 : ['"', c, '"'] <:+: subAppGo f rest :=
          infix_append_right (by simp)
            (by
              intro x hx
              have : x = '"' := by cases hx; exact rfl
              subst this
              decide) h
        exact (ih rest c h2).trans (matchApp_suffix hm).isInfix
      · rcases List.infix_cons_iff.mp h with hpre | hinf
        · obtain ⟨hd, h2⟩ := List.cons_prefix_cons.mp hpre
          subst hd
          have := subAppGo_pairQuote f t c h2
          exact List.infix_cons_iff.mpr (Or.inl (List.cons_prefix_cons.mpr ⟨rfl, this⟩))
        · exact (ih t c hinf).trans ⟨[d], [], by simp⟩

theorem subApp_qcq {l : List Char} {c : Char}
    (h : ['"', c, '"'] <:+: subApp l) : ['"', c, '"'] <:+: l :=
  subAppGo_qcq l.length l c h

/-! ### Accessors and helpers for the claim statements -/

/-- The `time` token captured by the grammar (after path normalization). -/
def timeTok (log_line : List Char) : List Char :=
  match elbGroups log_line with
  | some g => g.time
  | none => []

/-- The combined client `address:port` token captured by the grammar. -/
def clientTok (log_line : List Char) : List Char :=
  match elbGroups log_line with
  | some g => g.client_port
  | none => []

/-- The combined target `address:port` token captured by the grammar. -/
def targetTok (log_line : List Char) : List Char :=
  match elbGroups log_line with
  | some g => g.target_port
  | none => []

/-- A record is flat when it is an object all of whose values are
strings (no nested object). -/
def isFlat : PyVal → Bool
  | .dict kvs => kvs.all (fun kv => match kv.2 with | .s _ => true | .dict _ => false)
  | .s _ => false

/-- Drop the last entry of a record (on success records this removes
`raw_log`, the only field that depends on the redaction secrets). -/
def dropLastEntry : PyVal → PyVal
  | .dict kvs => .dict kvs.dropLast
  | v => v

theorem normVal_ne_dash (v : List Char) : normVal v ≠ ['-'] := by
  unfold normVal
  split
  · simp
  · assumption

theorem lookupKV_mem : ∀ {kvs : List (List Char × PyVal)} {k : List Char} {v : PyVal},
    lookupKV kvs k = some v → (k, v) ∈ kvs := by
  intro kvs
  induction kvs with
  | nil => intro k v h; exact Option.noConfusion h
  | cons kv t ih =>
    intro k v h
    match kv with
    | (k1, v1) =>
      rw [lookupKV] at h
      split at h
      · rename_i heq
        cases h
        subst heq
        exact List.mem_cons_self _ _
      · exact List.mem_cons_of_mem _ (ih h)

theorem rsplitColon_no_colon {s : List Char} (h : ':' ∉ s) : rsplitColon s = (s, []) := by
  unfold rsplitColon
  rw [if_neg h]

/-! ### The success path of `parse_elb_log`, field by field -/

theorem parse_get_raw_log {line cert acct : List Char} {g : Groups}
    (h : matchELB (subApp line) = some g) :
    (parse_elb_log line cert acct).get (("raw_log").toList) =
      some (.s (pyReplace (pyReplace (subApp line) cert CERT_REPL) acct ACCT_REPL)) := by
  simp only [parse_elb_log, h]
  rfl

theorem parse_get_time {line cert acct : List Char} {g : Groups}
    (h : matchELB (subApp line) = some g) :
    (parse_elb_log line cert acct).get (("_time").toList) =
      some (.s (match strptimeELB g.time with
                | some dt => isoformat dt ++ ['Z']
                | none => g.time)) := by
  simp only [parse_elb_log, h]
  rfl

theorem parse_get_client {line cert acct : List Char} {g : Groups}
    (h : matchELB (subApp line) = some g) :
    (parse_elb_log line cert acct).get (("client").toList) =
      some (.s (normVal (rsplitColon g.client_port).1)) := by
  simp only [parse_elb_log, h]
  rfl

theorem parse_get_client_port {line cert acct : List Char} {g : Groups}
    (h : matchELB (subApp line) = some g) :
    (parse_elb_log line cert acct).get (("client_port").toList) =
      some (.s (normVal (rsplitColon g.client_port).2)) := by
  simp only [parse_elb_log, h]
  rfl

theorem parse_get_target {line cert acct : List Char} {g : Groups}
    (h : matchELB (subApp line) = some g) :
    (parse_elb_log line cert acct).get (("target").toList) =
      some (.s (normVal (rsplitColon g.target_port).1)) := by
  simp only [parse_elb_log, h]
  rfl

theorem parse_get_target_port {line cert acct : List Char} {g : Groups}
    (h : matchELB (subApp line) = some g) :
    (parse_elb_log line cert acct).get (("target_port").toList) =
      some (.s (normVal (rsplitColon g.target_port).2)) := by
  simp only [parse_elb_log, h]
  rfl

theorem parse_fail_eq {line cert acct : List Char}
    (h : matchELB (subApp line) = none) :
    parse_elb_log line cert acct =
      .dict [(("_time").toList, .s []),
             (("data").toList, .dict [(("error").toList, .s (("Failed to parse log line").toList))])] := by
  simp only [parse_elb_log, h]

/-! ### Lemmas about the batching loop -/

theorem runBatchesGo_fuel (sink : List PyVal → Nat) :
    ∀ (f1 : Nat), ∀ (f2 : Nat) (xs : List PyVal), xs.length ≤ f1 → xs.length ≤ f2 →
      runBatchesGo sink f1 xs = runBatchesGo sink f2 xs := by
  intro f1
  induction f1 with
  | zero =>
    intro f2 xs h1 h2
    cases xs with
    | nil => cases f2 <;> simp [runBatchesGo]
    | cons x t => simp at h1
  | succ f ih =>
    intro f2 xs h1 h2
    cases xs with
    | nil => cases f2 <;> simp [runBatchesGo]
    | cons x t =>
      cases f2 with
      | zero => simp at h2
      | succ f2' =>
        rw [runBatchesGo, runBatchesGo]
        have hd : ((x :: t).drop 50).length ≤ f := by
          simp only [List.length_drop, List.length_cons]
          simp only [List.length_cons] at h1
          omega
        have hd2 : ((x :: t).drop 50).length ≤ f2' := by
          simp only [List.length_drop, List.length_cons]
          simp only [List.length_cons] at h2
          omega
        rw [ih f2' _ hd hd2]

theorem runBatches_cons (sink : List PyVal → Nat) (xs : List PyVal) (h : xs ≠ []) :
    runBatches sink xs =
      (xs.take 50, sink (xs.take 50)) :: runBatches sink (xs.drop 50) := by
  cases xs with
  | nil => exact absurd rfl h
  | cons x t =>
    show runBatchesGo sink (t.length + 1) (x :: t) = _
    rw [runBatchesGo]
    congr 1
    exact runBatchesGo_fuel sink t.length ((x :: t).drop 50).length _
      (by simp only [List.length_drop, List.length_cons]; omega) (le_refl _)

theorem runBatches_join (sink : List PyVal → Nat) :
    ∀ (n : Nat) (xs : List PyVal), xs.length ≤ n →
      ((runBatches sink xs).map Prod.fst).flatten = xs := by
  intro n
  induction n with
  | zero =>
    intro xs h
    have : xs = [] := List.length_eq_zero.mp (Nat.le_zero.mp h)
    subst this
    rfl
  | succ n ih =>
    intro xs h
    cases hxs : xs with
    | nil => rfl
    | cons x t =>
      subst hxs
      rw [runBatches_cons sink _ (by simp)]
      simp only [List.map_cons, List.flatten_cons]
      rw [ih ((x :: t).drop 50) (by
        simp only [List.length_drop, List.length_cons]
        simp only [List.length_cons] at h
        omega)]
      exact List.take_append_drop _ _

/-! ### Concrete example lines (all verified against the grammar) -/
def exLine : List Char := ("https 2023-01-15T10:30:00.123456Z app/my-lb/abc 10.0.0.1:443 10.0.2.5:80 0 1 0 200 200 100 200 \"GET https://example.com:443/ HTTP/1.1\" \"Mozilla/5.0\" ECDHE-RSA-AES128 TLSv1.2 arn:tg/my-service/abc123 \"Root=1-abc\" \"example.com\" arn:cert 0 2023-01-15T10:30:00.100000Z \"forward\" \"-\" \"-\" \"80\" \"200\" \"-\" \"-\" TID_x").toList
def lineNT : List Char := ("https not-a-time app/my-lb/abc 10.0.0.1:443 10.0.2.5:80 0 1 0 200 200 100 200 \"GET https://example.com:443/ HTTP/1.1\" \"Mozilla/5.0\" ECDHE-RSA-AES128 TLSv1.2 arn:tg/my-service/abc123 \"Root=1-abc\" \"example.com\" arn:cert 0 2023-01-15T10:30:00.100000Z \"forward\" \"-\" \"-\" \"80\" \"200\" \"-\" \"-\" TID_x").toList
def lineC1 : List Char := ("https 2023-01-15T10:30:00.123456Z app/k8s-default-ingressn-abc123/def456 10.0.0.1:443 10.0.2.5:80 0 1 0 200 200 100 200 \"GET https://example.com:443/ HTTP/1.1\" \"Mozilla/5.0\" ECDHE-RSA-AES128 TLSv1.2 arn:tg/my-service/abc123 \"Root=1-abc\" \"example.com\" arn:cert 0 2023-01-15T10:30:00.100000Z \"forward\" \"-\" \"-\" \"80\" \"200\" \"-\" \"-\" TID_x").toList
def lineC2 : List Char := ("https - app/my-lb/abc 10.0.0.1:443 10.0.2.5:80 0 1 0 200 200 100 200 \"GET https://example.com:443/ HTTP/1.1\" \"Mozilla/5.0\" ECDHE-RSA-AES128 TLSv1.2 arn:tg/my-service/abc123 \"Root=1-abc\" \"example.com\" arn:cert 0 2023-01-15T10:30:00.100000Z \"forward\" \"-\" \"-\" \"80\" \"200\" \"-\" \"-\" TID_x").toList
def lineC7 : List Char := ("https 2023-01-15T10:30:00.123456Z app/my-lb/abc 1.2.3.4:- 10.0.2.5:80 0 1 0 200 200 100 200 \"GET https://example.com:443/ HTTP/1.1\" \"Mozilla/5.0\" ECDHE-RSA-AES128 TLSv1.2 arn:tg/my-service/abc123 \"Root=1-abc\" \"example.com\" arn:cert 0 2023-01-15T10:30:00.100000Z \"forward\" \"-\" \"-\" \"80\" \"200\" \"-\" \"-\" TID_x").toList
def lineC7w : List Char := ("https 2023-01-15T10:30:00.123456Z app/my-lb/abc 10.0.0.1:443 - 0 1 0 200 200 100 200 \"GET https://example.com:443/ HTTP/1.1\" \"Mozilla/5.0\" ECDHE-RSA-AES128 TLSv1.2 arn:tg/my-service/abc123 \"Root=1-abc\" \"example.com\" arn:cert 0 2023-01-15T10:30:00.100000Z \"forward\" \"-\" \"-\" \"80\" \"200\" \"-\" \"-\" TID_x").toList
def lineC8a : List Char := ("https 2023-01-15T10:30:00.123456Z app/my-lb/abc 10.0.0.1:443 10.0.2.5:80 0 1 0 200 200 100 200 \"GET https://example.com:443/ HTTP/1.1\" \"Mozilla/5.0\" ECDHE-RSA-AES128 TLSv1.2 arn:tg/my-service/abc123 \"Root=1-abc\" \"example.com\" arn:cert 0 2023-01-15T10:30:00.100000Z \"forward\" \"-\" \"-\" \"80\" \"200\" \"-\" \"-\" NNaa").toList
def lineC8b : List Char := ("https 2023-01-15T10:30:00.123456Z app/k8s-default-ingressn-secret99abc/h7xyz 10.0.0.1:443 10.0.2.5:80 0 1 0 200 200 100 200 \"GET https://example.com:443/ HTTP/1.1\" \"Mozilla/5.0\" ECDHE-RSA-AES128 TLSv1.2 arn:tg/my-service/abc123 \"Root=1-abc\" \"example.com\" arn:cert 0 2023-01-15T10:30:00.100000Z \"forward\" \"-\" \"-\" \"80\" \"200\" \"-\" \"-\" TID_x").toList
def lineC8w : List Char := ("https 2023-01-15T10:30:00.123456Z app/my-lb/abc 10.0.0.1:443 10.0.2.5:80 0 1 0 200 200 100 200 \"GET https://example.com:443/ HTTP/1.1\" \"Mozilla/5.0\" ECDHE-RSA-AES128 TLSv1.2 arn:aws:elb:eu-west-1:123456789012:targetgroup/my-svc/abc \"Root=1-abc\" \"example.com\" arn:aws:acm:eu-west-1:123:certificate/ab-cd 0 2023-01-15T10:30:00.100000Z \"forward\" \"-\" \"-\" \"80\" \"200\" \"-\" \"-\" TID_x").toList
def junk9 : List Char := (" @@trailing9@@").toList

/-! ### The claims -/

/-- C4: for 120 records and batch size 50, the forwarder issues exactly 3
sink calls whose payloads are the contiguous slices of sizes 50, 50, 20 in
original order; the loop never inspects the sink's status, so a failing
batch does not halt processing (the conclusion holds for EVERY sink,
including ones that fail the second call); and the returned count equals
the number of records regardless of per-batch outcomes. -/
theorem C4_batching (sink : List PyVal → Nat) (lines : List (List Char))
    (cert acct : List Char) (h : lines.length = 120) :
    (lambda_handler_core sink lines cert acct).1.map Prod.fst =
      [(lines.map (fun l => parse_elb_log l cert acct)).take 50,
       ((lines.map (fun l => parse_elb_log l cert acct)).drop 50).take 50,
       (lines.map (fun l => parse_elb_log l cert acct)).drop 100] ∧
    ((lambda_handler_core sink lines cert acct).1.map Prod.fst).map List.length =
      [50, 50, 20] ∧
    ((lambda_handler_core sink lines cert acct).1.map Prod.fst).flatten =
      lines.map (fun l => parse_elb_log l cert acct) ∧
    (lambda_handler_core sink lines cert acct).1.length = 3 ∧
    (lambda_handler_core sink lines cert acct).2 = 120 := by
  have hjs : (lines.map (fun l => parse_elb_log l cert acct)).length = 120 := by
    rw [List.length_map]; exact h
  set js := lines.map (fun l => parse_elb_log l cert acct) with hjsdef
  have hcore1 : (lambda_handler_core sink lines cert acct).1 = runBatches sink js := rfl
  have hcore2 : (lambda_handler_core sink lines cert acct).2 = js.length := rfl
  have h1 : runBatches sink js =
      (js.take 50, sink (js.take 50)) :: runBatches sink (js.drop 50) :=
    runBatches_cons sink js (by intro he; rw [he] at hjs; simp at hjs)
  have hd50 : (js.drop 50).length = 70 := by simp [hjs]
  have h2 : runBatches sink (js.drop 50) =
      ((js.drop 50).take 50, sink ((js.drop 50).take 50)) ::
        runBatches sink ((js.drop 50).drop 50) :=
    runBatches_cons sink _ (by intro he; rw [he] at hd50; simp at hd50)
  have hdd : (js.drop 50).drop 50 = js.drop 100 := by
    rw [List.drop_drop]
  have hd100 : (js.drop 100).length = 20 := by simp [hjs]
  have h3 : runBatches sink (js.drop 100) =
      ((js.drop 100).take 50, sink ((js.drop 100).take 50)) ::
        runBatches sink ((js.drop 100).drop 50) :=
    runBatches_cons sink _ (by intro he; rw [he] at hd100; simp at hd100)
  have hd150 : (js.drop 100).drop 50 = [] := by
    apply List.eq_nil_of_length_eq_zero
    simp [hjs]
  have htk : (js.drop 100).take 50 = js.drop 100 := by
    apply List.take_of_length_le
    omega
  have hrb : runBatches sink js =
      [(js.take 50, sink (js.take 50)),
       ((js.drop 50).take 50, sink ((js.drop 50).take 50)),
       (js.drop 100, sink (js.drop 100))] := by
    rw [h1, h2, hdd, h3, hd150, htk]
    rfl
  refine ⟨?_, ?_, ?_, ?_, ?_⟩
  · rw [hcore1, hrb]
    rfl
  · rw [hcore1, hrb]
    simp only [List.map_cons, List.map_nil]
    rw [List.length_take, List.length_take, hjs, hd50, hd100]
    rfl
  · rw [hcore1]
    exact runBatches_join sink js.length js (le_refl _)
  · rw [hcore1, hrb]
    rfl
  · rw [hcore2, hjs]

/-- C4 witness: 120 concrete records, a sink that fails every call
(so in particular the second); all three calls still happen and the
count is still 120. -/
theorem C4_batching_witness :
    (List.replicate 120 (("x").toList)).length = 120 ∧
    (lambda_handler_core (fun _ => 500) (List.replicate 120 (("x").toList))
        (("S1").toList) (("S2").toList)).1.length = 3 ∧
    (lambda_handler_core (fun _ => 500) (List.replicate 120 (("x").toList))
        (("S1").toList) (("S2").toList)).2 = 120 := by
  refine ⟨by simp, ?_, ?_⟩
  · exact (C4_batching (fun _ => 500) _ _ _ (by simp)).2.2.2.1
  · exact (C4_batching (fun _ => 500) _ _ _ (by simp)).2.2.2.2

/-- C5: a line that does not match the 28-field grammar yields a
ParseFailureRecord with an empty `_time` and an explicit error payload in
place of data, with no partial extraction; and such a record is still
appended to `json_logs` and therefore appears in the forwarded batch
payloads rather than being dropped. -/
theorem C5_failure_record (line cert acct : List Char) (hm : elbGroups line = none) :
    parse_elb_log line cert acct =
      .dict [(("_time").toList, .s []),
             (("data").toList, .dict [(("error").toList, .s (("Failed to parse log line").toList))])] ∧
    (parse_elb_log line cert acct).get (("_time").toList) = some (.s []) ∧
    ∀ (others : List (List Char)) (sink : List PyVal → Nat), line ∈ others →
      parse_elb_log line cert acct ∈
        ((lambda_handler_core sink others cert acct).1.map Prod.fst).flatten := by
  unfold elbGroups at hm
  refine ⟨parse_fail_eq hm, ?_, ?_⟩
  · rw [parse_fail_eq hm]
    rfl
  · intro others sink hmem
    have hcore : (lambda_handler_core sink others cert acct).1 =
        runBatches sink (others.map (fun l => parse_elb_log l cert acct)) := rfl
    rw [hcore, runBatches_join sink _ _ (le_refl _)]
    exact List.mem_map.mpr ⟨line, hmem, rfl⟩

/-- C5 witness: the concrete garbage line is rejected by the grammar,
produces the failure record, and is still present in the forwarded
payloads. -/
theorem C5_failure_record_witness :
    elbGroups (("garbage").toList) = none ∧
    (parse_elb_log (("garbage").toList) (("S1").toList) (("S2").toList)).get
        (("_time").toList) = some (.s []) ∧
    parse_elb_log (("garbage").toList) (("S1").toList) (("S2").toList) ∈
      ((lambda_handler_core (fun _ => 200) [("garbage").toList]
          (("S1").toList) (("S2").toList)).1.map Prod.fst).flatten := by
  refine ⟨by rfl, ?_, ?_⟩
  · exact (C5_failure_record _ _ _ (by rfl)).2.1
  · exact (C5_failure_record _ _ _ (by rfl)).2.2 [("garbage").toList] (fun _ => 200)
      (List.mem_cons_self _ _)

/-- C3 counterexample: the claim says EVERY record (ParseFailureRecord
included) is a flat object of sibling string fields.  The failure record
produced for an unparseable line nests an object under the `data` key, so
it is not flat. -/
theorem C3_counterexample :
    parse_elb_log (("garbage").toList) (("S1").toList) (("S2").toList) =
      .dict [(("_time").toList, .s []),
             (("data").toList, .dict [(("error").toList, .s (("Failed to parse log line").toList))])] ∧
    isFlat (parse_elb_log (("garbage").toList) (("S1").toList) (("S2").toList)) = false := by
  exact ⟨rfl, rfl⟩

/-- C3 amended: every SUCCESSFUL parse is a flat object — a top-level
`_time` string with all other attributes as sibling string fields — but
the failure record nests its error marker inside a `data` object. -/
theorem C3_flat_records (line cert acct : List Char)
    (hm : (elbGroups line).isSome = true) :
    isFlat (parse_elb_log line cert acct) = true ∧
    (∃ t, (parse_elb_log line cert acct).get (("_time").toList) = some (.s t)) ∧
    ∀ line2 : List Char, elbGroups line2 = none →
      isFlat (parse_elb_log line2 cert acct) = false := by
  obtain ⟨g, hg⟩ := Option.isSome_iff_exists.mp hm
  unfold elbGroups at hg
  refine ⟨?_, ?_, ?_⟩
  · simp only [parse_elb_log, hg]
    rfl
  · refine ⟨_, parse_get_time hg⟩
  · intro line2 h2
    unfold elbGroups at h2
    rw [parse_fail_eq h2]
    rfl

/-- C3 witness at a concrete matched line and a concrete garbage line. -/
theorem C3_flat_records_witness :
    isFlat (parse_elb_log exLine (("SECRETC").toList) (("SECRETA").toList)) = true ∧
    isFlat (parse_elb_log (("garbage").toList) (("SECRETC").toList) (("SECRETA").toList)) = false := by
  refine ⟨(C3_flat_records exLine _ _ (by decide)).1, ?_⟩
  exact (C3_flat_records exLine (("SECRETC").toList) (("SECRETA").toList) (by decide)).2.2
    (("garbage").toList) (by rfl)

/-- C6: for every matched line whose time token parses in the source
format `%Y-%m-%dT%H:%M:%S.%fZ`, the `_time` field is the isoformat
rendering with an explicit `Z` marker; for every time token that does not
parse, the token is passed through unchanged (the record still succeeds). -/
theorem C6_timestamp (line cert acct : List Char)
    (hm : (elbGroups line).isSome = true) :
    (∀ dt, strptimeELB (timeTok line) = some dt →
      (parse_elb_log line cert acct).get (("_time").toList) =
        some (.s (isoformat dt ++ ['Z']))) ∧
    (strptimeELB (timeTok line) = none →
      (parse_elb_log line cert acct).get (("_time").toList) =
        some (.s (timeTok line))) := by
  obtain ⟨g, hg⟩ := Option.isSome_iff_exists.mp hm
  have ht : timeTok line = g.time := by
    unfold timeTok
    rw [hg]
  unfold elbGroups at hg
  rw [ht]
  constructor
  · intro dt hdt
    rw [parse_get_time hg, hdt]
  · intro hdt
    rw [parse_get_time hg, hdt]

/-- C6 witness: the ISO example maps to itself (explicit marker
preserved), and `not-a-time` passes through unchanged. -/
theorem C6_timestamp_witness :
    strptimeELB (timeTok exLine) = some ⟨2023, 1, 15, 10, 30, 0, 123456⟩ ∧
    (parse_elb_log exLine (("SECRETC").toList) (("SECRETA").toList)).get
        (("_time").toList) = some (.s (("2023-01-15T10:30:00.123456Z").toList)) ∧
    timeTok exLine = ("2023-01-15T10:30:00.123456Z").toList ∧
    strptimeELB (timeTok lineNT) = none ∧
    (parse_elb_log lineNT (("SECRETC").toList) (("SECRETA").toList)).get
        (("_time").toList) = some (.s (("not-a-time").toList)) := by
  refine ⟨by rfl, ?_, by rfl, by rfl, ?_⟩
  · exact (C6_timestamp exLine _ _ (by decide)).1 ⟨2023, 1, 15, 10, 30, 0, 123456⟩ (by rfl)
  · exact (C6_timestamp lineNT _ _ (by decide)).2 (by rfl)

/-- C1 counterexample: on a line containing an
`app/k8s-default-ingressn-<hash>/<hash>` segment, `raw_log` is the
redaction of the CANONICALIZED line (the source rebinds `log_line` before
redacting), not of the original line: with secrets that do not occur, the
redaction of the original line is the original line itself, yet `raw_log`
differs from it. -/
theorem C1_counterexample :
    (elbGroups lineC1).isSome = true ∧
    (parse_elb_log lineC1 (("SX").toList) (("SY").toList)).get (("raw_log").toList) =
      some (.s (subApp lineC1)) ∧
    pyReplace (pyReplace lineC1 (("SX").toList) CERT_REPL) (("SY").toList) ACCT_REPL =
      lineC1 ∧
    subApp lineC1 ≠ lineC1 := by
  exact ⟨by decide, by rfl, by rfl, by decide⟩

/-- C1 amended: `raw_log` equals the CANONICALIZED (path-pre-normalized)
line with the two secret substitutions applied in order (certificate
first, then account) — redaction is applied to the normalized line, not
the original one. -/
theorem C1_raw_log_amended (line cert acct : List Char)
    (hm : (elbGroups line).isSome = true) :
    (parse_elb_log line cert acct).get (("raw_log").toList) =
      some (.s (pyReplace (pyReplace (subApp line) cert CERT_REPL) acct ACCT_REPL)) := by
  obtain ⟨g, hg⟩ := Option.isSome_iff_exists.mp hm
  unfold elbGroups at hg
  exact parse_get_raw_log hg

/-- C1 amended witness at a concrete line and concrete secrets. -/
theorem C1_raw_log_amended_witness :
    (parse_elb_log lineC1 (("SX").toList) (("SY").toList)).get (("raw_log").toList) =
      some (.s (pyReplace (pyReplace (subApp lineC1) (("SX").toList) CERT_REPL)
        (("SY").toList) ACCT_REPL)) :=
  C1_raw_log_amended lineC1 (("SX").toList) (("SY").toList) (by decide)

/-- C7 counterexample: the claim says the combined address field is split
on its last colon into the address and port components of the output.  On
a matched line with client field `1.2.3.4:-`, the port component of the
last-colon split is `-`, but the output `client_port` is the empty string
(the sentinel pass also normalizes split components), so the output is
not the split component. -/
theorem C7_counterexample :
    (elbGroups lineC7).isSome = true ∧
    clientTok lineC7 = ("1.2.3.4:-").toList ∧
    rsplitColon (clientTok lineC7) = (("1.2.3.4").toList, ['-']) ∧
    (parse_elb_log lineC7 (("S1").toList) (("S2").toList)).get (("client_port").toList) =
      some (.s []) := by
  exact ⟨by decide, by rfl, by rfl, by rfl⟩

/-- C7 amended: the combined client and target fields are split on their
LAST colon, and the resulting components are then sentinel-normalized (a
component equal to `-` becomes empty).  A field with no colon yields the
whole field as the address and an empty port (before normalization), and
the sentinel `-` as target yields empty target and targetPort. -/
theorem C7_address_split (line cert acct : List Char)
    (hm : (elbGroups line).isSome = true) :
    ((parse_elb_log line cert acct).get (("client").toList) =
        some (.s (normVal (rsplitColon (clientTok line)).1)) ∧
     (parse_elb_log line cert acct).get (("client_port").toList) =
        some (.s (normVal (rsplitColon (clientTok line)).2)) ∧
     (parse_elb_log line cert acct).get (("target").toList) =
        some (.s (normVal (rsplitColon (targetTok line)).1)) ∧
     (parse_elb_log line cert acct).get (("target_port").toList) =
        some (.s (normVal (rsplitColon (targetTok line)).2))) ∧
    (∀ s : List Char, ':' ∉ s → rsplitColon s = (s, [])) ∧
    (targetTok line = ['-'] →
      (parse_elb_log line cert acct).get (("target").toList) = some (.s []) ∧
      (parse_elb_log line cert acct).get (("target_port").toList) = some (.s [])) := by
  obtain ⟨g, hg⟩ := Option.isSome_iff_exists.mp hm
  have hc : clientTok line = g.client_port := by
    unfold clientTok
    rw [hg]
  have htg : targetTok line = g.target_port := by
    unfold targetTok
    rw [hg]
  unfold elbGroups at hg
  refine ⟨⟨?_, ?_, ?_, ?_⟩, ?_, ?_⟩
  · rw [hc]; exact parse_get_client hg
  · rw [hc]; exact parse_get_client_port hg
  · rw [htg]; exact parse_get_target hg
  · rw [htg]; exact parse_get_target_port hg
  · intro s hs; exact rsplitColon_no_colon hs
  · intro hdash
    rw [htg] at hdash
    constructor
    · rw [parse_get_target hg, hdash]
      rfl
    · rw [parse_get_target_port hg, hdash]
      rfl

/-- C7 witness: `10.0.0.1:443` splits into client `10.0.0.1` and
clientPort `443`; the sentinel target `-` yields empty target and
targetPort. -/
theorem C7_address_split_witness :
    (parse_elb_log lineC7w (("S1").toList) (("S2").toList)).get (("client").toList) =
      some (.s (("10.0.0.1").toList)) ∧
    (parse_elb_log lineC7w (("S1").toList) (("S2").toList)).get (("client_port").toList) =
      some (.s (("443").toList)) ∧
    (parse_elb_log lineC7w (("S1").toList) (("S2").toList)).get (("target").toList) =
      some (.s []) ∧
    (parse_elb_log lineC7w (("S1").toList) (("S2").toList)).get (("target_port").toList) =
      some (.s []) := by
  have h := C7_address_split lineC7w (("S1").toList) (("S2").toList) (by decide)
  obtain ⟨⟨h1, h2, -, -⟩, -, h3⟩ := h
  refine ⟨h1, h2, ?_, ?_⟩
  · exact (h3 (by rfl)).1
  · exact (h3 (by rfl)).2

/-- C2 counterexample: the time token `-` matches the grammar (`\S+`),
`strptime` fails on it, and the token is passed through, so the top-level
`_time` field of a successful record equals the sentinel literal `-` —
the sentinel pass never touches `_time`. -/
theorem C2_counterexample :
    (elbGroups lineC2).isSome = true ∧
    (parse_elb_log lineC2 (("S1").toList) (("S2").toList)).get (("_time").toList) =
      some (.s ['-']) := by
  exact ⟨by decide, by rfl⟩

/-- C2 amended: on every matched line, every field OTHER than the
top-level `_time` is sentinel-normalized — no such field ever equals the
literal `-`.  (`_time` can retain the sentinel, as the counterexample
shows.) -/
theorem C2_sentinel_normalization (line cert acct k : List Char) (v : PyVal)
    (hm : (elbGroups line).isSome = true)
    (hk : (parse_elb_log line cert acct).get k = some v)
    (hne : k ≠ ("_time").toList) :
    v ≠ .s ['-'] := by
  obtain ⟨g, hg⟩ := Option.isSome_iff_exists.mp hm
  unfold elbGroups at hg
  have hlen2 : 2 ≤ (subApp line).length := (matchELB_props hg).1
  simp only [parse_elb_log, hg] at hk
  simp only [PyVal.get] at hk
  have hmem := lookupKV_mem hk
  simp only [List.mem_cons, List.mem_append, List.mem_singleton, List.not_mem_nil,
    or_false] at hmem
  rcases hmem with (h1 | h2) | h3
  · exfalso
    apply hne
    exact congrArg Prod.fst h1
  · obtain ⟨kv, -, heq⟩ := List.mem_map.mp h2
    have hv : v = .s (normVal kv.2) := (congrArg Prod.snd heq).symm
    rw [hv]
    intro hcon
    have : normVal kv.2 = ['-'] := by
      injection hcon
    exact normVal_ne_dash kv.2 this
  · have hv : v = .s (pyReplace (pyReplace (subApp line) cert CERT_REPL) acct ACCT_REPL) :=
      congrArg Prod.snd h3
    rw [hv]
    intro hcon
    have hrl : (pyReplace (pyReplace (subApp line) cert CERT_REPL) acct ACCT_REPL) = ['-'] := by
      injection hcon
    have hmin1 : 2 ≤ (pyReplace (subApp line) cert CERT_REPL).length := by
      have := pyReplace_min_len (subApp line) cert CERT_REPL
      have hcr : CERT_REPL.length = 8 := by decide
      omega
    have hmin2 : 2 ≤ (pyReplace (pyReplace (subApp line) cert CERT_REPL) acct ACCT_REPL).length := by
      have := pyReplace_min_len (pyReplace (subApp line) cert CERT_REPL) acct ACCT_REPL
      have har : ACCT_REPL.length = 10 := by decide
      omega
    rw [hrl] at hmin2
    simp at hmin2

/-- C2 amended witness: the `client` field of a concrete parse is not the
sentinel. -/
theorem C2_sentinel_normalization_witness :
    PyVal.s (("10.0.0.1").toList) ≠ PyVal.s ['-'] :=
  C2_sentinel_normalization exLine (("SECRETC").toList) (("SECRETA").toList)
    (("client").toList) (.s (("10.0.0.1").toList)) (by decide) (by rfl) (by decide)

/-- C9 counterexample: the grammar is indeed not anchored at the end —
a line with trailing text after the 28 fields still parses successfully —
but the resulting record is NOT identical to parsing the prefix alone:
`raw_log` keeps the trailing text, so the records differ. -/
theorem C9_counterexample :
    (elbGroups (exLine ++ junk9)).isSome = true ∧
    parse_elb_log (exLine ++ junk9) (("SECRETC").toList) (("SECRETA").toList) ≠
      parse_elb_log exLine (("SECRETC").toList) (("SECRETA").toList) := by
  refine ⟨by decide, ?_⟩
  intro he
  have h1 : (parse_elb_log (exLine ++ junk9) (("SECRETC").toList) (("SECRETA").toList)).get
      (("raw_log").toList) = some (.s (exLine ++ junk9)) := by rfl
  have h2 : (parse_elb_log exLine (("SECRETC").toList) (("SECRETA").toList)).get
      (("raw_log").toList) = some (.s exLine) := by rfl
  rw [he, h2] at h1
  have h3 : exLine = exLine ++ junk9 := by
    injection h1 with h1
    injection h1
  have h4 : exLine.length = exLine.length + junk9.length := by
    conv in exLine.length + _ => rw [← List.length_append]
    rw [← h3]
  have : junk9.length = 14 := by decide
  omega

/-- C9 amended: the match is not end-anchored: a line whose prefix
matches the 28-field grammar followed by trailing text still parses
successfully, and the result agrees with the parse of the prefix alone on
every field EXCEPT `raw_log`, which is the redaction of the full line
including the trailing text. -/
theorem C9_trailing_text (cert acct : List Char) :
    (elbGroups (exLine ++ junk9)).isSome = true ∧
    dropLastEntry (parse_elb_log (exLine ++ junk9) cert acct) =
      dropLastEntry (parse_elb_log exLine cert acct) ∧
    (parse_elb_log (exLine ++ junk9) cert acct).get (("raw_log").toList) =
      some (.s (pyReplace (pyReplace (exLine ++ junk9) cert CERT_REPL) acct ACCT_REPL)) := by
  exact ⟨by decide, by rfl, by rfl⟩

/-- C8 counterexample.  Part one: with secret `Na` on a matched line
containing `NNaa`, the replacement consumes the middle `Na` and the
leftover `N` and `a` recombine around the inserted placeholder, so
`raw_log` still CONTAINS the secret — the zero-occurrence claim fails.
Part two: a secret that lies inside the `app/...` hash segment is erased
by path canonicalization before redaction, so the original line contains
the secret once but `raw_log` contains no placeholder at all — the
placeholder-count claim fails. -/
theorem C8_counterexample :
    ((elbGroups lineC8a).isSome = true ∧
     ("Na").toList <:+: lineC8a ∧
     (parse_elb_log lineC8a (("Na").toList) (("QQQQ").toList)).get (("raw_log").toList) =
       some (.s (pyReplace (pyReplace lineC8a (("Na").toList) CERT_REPL)
         (("QQQQ").toList) ACCT_REPL)) ∧
     ("Na").toList <:+:
       pyReplace (pyReplace lineC8a (("Na").toList) CERT_REPL) (("QQQQ").toList) ACCT_REPL) ∧
    ((elbGroups lineC8b).isSome = true ∧
     ("secret99").toList <:+: lineC8b ∧
     (parse_elb_log lineC8b (("secret99").toList) (("QQQQ").toList)).get (("raw_log").toList) =
       some (.s (pyReplace (pyReplace (subApp lineC8b) (("secret99").toList) CERT_REPL)
         (("QQQQ").toList) ACCT_REPL)) ∧
     ¬ (CERT_REPL <:+:
        pyReplace (pyReplace (subApp lineC8b) (("secret99").toList) CERT_REPL)
          (("QQQQ").toList) ACCT_REPL) ∧
     ¬ (("secret99").toList <:+:
        pyReplace (pyReplace (subApp lineC8b) (("secret99").toList) CERT_REPL)
          (("QQQQ").toList) ACCT_REPL)) := by
  exact ⟨⟨by decide, by decide, by rfl, by decide⟩,
         ⟨by decide, by decide, by rfl, by decide, by decide⟩⟩

/-- C8 amended: when both secrets are non-empty and share no character
with the placeholder strings (true of real certificate ARNs and account
ids, which are lowercase/digits while the placeholders are upper-case),
`raw_log` contains zero occurrences of either secret.  The
placeholder-count equality of the original claim additionally fails when
canonicalization erases occurrences, and occurrences are counted
non-overlapping on the canonicalized line. -/
theorem C8_redaction (line cert acct : List Char)
    (hm : (elbGroups line).isSome = true)
    (hcne : cert ≠ []) (hane : acct ≠ [])
    (hc1 : ∀ c ∈ cert, c ∉ CERT_REPL) (hc2 : ∀ c ∈ cert, c ∉ ACCT_REPL)
    (ha2 : ∀ c ∈ acct, c ∉ ACCT_REPL) :
    ∀ r, (parse_elb_log line cert acct).get (("raw_log").toList) = some (.s r) →
      ¬ (cert <:+: r) ∧ ¬ (acct <:+: r) := by
  obtain ⟨g, hg⟩ := Option.isSome_iff_exists.mp hm
  unfold elbGroups at hg
  intro r hr
  rw [parse_get_raw_log hg] at hr
  have hreq : r = pyReplace (pyReplace (subApp line) cert CERT_REPL) acct ACCT_REPL := by
    injection hr with hr
    injection hr with hr
    exact hr.symm
  subst hreq
  have hinner : pyReplace (subApp line) cert CERT_REPL =
      pyRepGo cert CERT_REPL (subApp line).length (subApp line) := by
    unfold pyReplace
    rw [if_neg hcne]
  have houter : ∀ x : List Char, pyReplace x acct ACCT_REPL =
      pyRepGo acct ACCT_REPL x.length x := by
    intro x
    unfold pyReplace
    rw [if_neg hane]
  constructor
  · rw [houter, hinner]
    have hnocert : ¬ (cert <:+: pyRepGo cert CERT_REPL (subApp line).length (subApp line)) :=
      pyRepGo_no_old hcne (by decide) hc1 _ _ (le_refl _)
    exact pyRepGo_preserve hane (by decide) hcne hc2 _ _ (le_refl _) hnocert
  · rw [houter]
    exact pyRepGo_no_old hane (by decide) ha2 _ _ (le_refl _)

/-- C8 amended witness: a realistic certificate ARN and account id — both
disjoint from the placeholder alphabets — occur in the line and are fully
redacted from `raw_log`. -/
theorem C8_redaction_witness :
    ("arn:aws:acm:eu-west-1:123:certificate/ab-cd").toList <:+: lineC8w ∧
    ("123456789012").toList <:+: lineC8w ∧
    (¬ (("arn:aws:acm:eu-west-1:123:certificate/ab-cd").toList <:+:
        pyReplace (pyReplace (subApp lineC8w)
          (("arn:aws:acm:eu-west-1:123:certificate/ab-cd").toList) CERT_REPL)
          (("123456789012").toList) ACCT_REPL) ∧
     ¬ (("123456789012").toList <:+:
        pyReplace (pyReplace (subApp lineC8w)
          (("arn:aws:acm:eu-west-1:123:certificate/ab-cd").toList) CERT_REPL)
          (("123456789012").toList) ACCT_REPL)) := by
  refine ⟨by decide, by decide, ?_⟩
  exact C8_redaction lineC8w
    (("arn:aws:acm:eu-west-1:123:certificate/ab-cd").toList)
    (("123456789012").toList)
    (by decide) (by decide) (by decide) (by decide) (by decide) (by decide) _ (by rfl)

/-- C10: Python `str.replace` with an empty search string inserts the
replacement between every pair of adjacent characters and at both ends
(first conjunct, by definition), and consequently, whenever either
redaction secret is empty, the `raw_log` of every successfully matched
line differs from the original line.  The proof uses a spacing invariant:
every matched line contains two `"` characters exactly two positions
apart (the closing quote of the request field, one whitespace, the
opening quote of the user-agent field), while after an empty-secret
interleaving any two quotes in `raw_log` are separated by a full
placeholder copy, so the quote-X-quote pattern cannot occur. -/
theorem C10_empty_secret (line cert acct : List Char)
    (hm : (elbGroups line).isSome = true) (he : cert = [] ∨ acct = []) :
    (∀ s t : List Char, pyReplace s [] t = t ++ interC t s) ∧
    (parse_elb_log line cert acct).get (("raw_log").toList) ≠ some (.s line) := by
  constructor
  · intro s t
    unfold pyReplace
    rw [if_pos rfl]
  · obtain ⟨g, hg⟩ := Option.isSome_iff_exists.mp hm
    unfold elbGroups at hg
    rw [parse_get_raw_log hg]
    intro hEq
    have hR : pyReplace (pyReplace (subApp line) cert CERT_REPL) acct ACCT_REPL = line := by
      injection hEq with hEq
      injection hEq
    obtain ⟨-, c, hqcq⟩ := matchELB_props hg
    have hline : ['"', c, '"'] <:+: line := subApp_qcq hqcq
    have hRq : ['"', c, '"'] <:+:
        pyReplace (pyReplace (subApp line) cert CERT_REPL) acct ACCT_REPL := by
      rw [hR]
      exact hline
    by_cases hA : acct = []
    · subst hA
      have hout : pyReplace (pyReplace (subApp line) cert CERT_REPL) [] ACCT_REPL =
          ACCT_REPL ++ interC ACCT_REPL (pyReplace (subApp line) cert CERT_REPL) := by
        unfold pyReplace
        rw [if_pos rfl]
      rw [hout] at hRq
      exact interC_top_no_qcq (by decide) (by decide) _ c hRq
    · have hC : cert = [] := by
        rcases he with h | h
        · exact h
        · exact absurd h hA
      subst hC
      have hin : pyReplace (subApp line) [] CERT_REPL =
          CERT_REPL ++ interC CERT_REPL (subApp line) := by
        unfold pyReplace
        rw [if_pos rfl]
      have hout : pyReplace (pyReplace (subApp line) [] CERT_REPL) acct ACCT_REPL =
          pyRepGo acct ACCT_REPL (pyReplace (subApp line) [] CERT_REPL).length
            (pyReplace (subApp line) [] CERT_REPL) := by
        unfold pyReplace
        rw [if_neg hA]
      rw [hout] at hRq
      have hR1 := pyRepGo_qcq (by decide : '"' ∉ ACCT_REPL) (by decide) _ _ c hRq
      rw [hin] at hR1
      exact interC_top_no_qcq (by decide) (by decide) _ c hR1

/-- C10 witness: empty certificate secret at a concrete line. -/
theorem C10_empty_secret_witness :
    (parse_elb_log exLine [] (("XYZ").toList)).get (("raw_log").toList) ≠
      some (.s exLine) :=
  (C10_empty_secret exLine [] (("XYZ").toList) (by decide) (Or.inl rfl)).2
